import Mathlib

/-
  Formal model of the secret-scanning core of the repo-scanner backend.
  Every definition below mirrors a concrete piece of `src/backend/scanner.py`
  (the later, authoritative implementation per the specification) or, where
  noted, `src/backend/main.py`.  Line numbers in doc comments refer to those
  files.  Strings are Lean `String`s, Python `int` fields are `Int`, and
  byte buffers are `List Nat`.
-/

namespace RepoScanner

/-- Mirror of the `SecretFinding` dataclass (scanner.py lines 144-155).
Field order and names follow the dataclass; `stop` stands for the source
field `end`, which is a Lean keyword. -/
structure SecretFinding where
  file_path : String
  line_number : Nat
  secret_type : String
  pattern : String
  context : String
  severity : String
  start : Int
  stop : Int
  matched_value : String
deriving DecidableEq

/-- Helper for the Python substring test `p in t`, on character lists. -/
def substrAux (p : List Char) : List Char → Bool
  | [] => p.isEmpty
  | c :: rest => p.isPrefixOf (c :: rest) || substrAux p rest

/-- Python substring test `p in t` on strings. -/
def substrB (p t : String) : Bool :=
  substrAux p.data t.data

/-- Python's `str.lower()`, character by character.  All labels the scanner
compares after lowercasing are ASCII, for which `Char.toLower` agrees with
Python. -/
def pyLower (s : String) : String :=
  ⟨s.data.map Char.toLower⟩

/-- Overlap test used by the dedup sweep (scanner.py line 532):
`not (item.end <= existing.start or item.start >= existing.end)`. -/
def overlapB (item existing : SecretFinding) : Bool :=
  !(item.stop ≤ existing.start || item.start ≥ existing.stop)

/-- Mirror of `specificity_score` (scanner.py lines 505-517). -/
def specificity_score (f : SecretFinding) : Int :=
  let t := pyLower f.secret_type
  let providers := ["google", "aws", "github", "stripe", "slack", "jwt",
    "mongodb", "postgres", "postgresql"]
  let s1 : Int := if providers.any (fun p => substrB p t) then 100 else 0
  let s2 : Int := s1 + f.matched_value.length
  if substrB "generic" t || substrB "key-value" t || substrB "possible" t then
    s2 - 10
  else
    s2

/-- One step of the dedup sweep's inner loop (scanner.py lines 529-539):
walk the kept list, and at the first kept finding overlapping `item`
resolve by specificity (replace in place only on a strictly higher score),
otherwise append `item` at the end. -/
def sweepStep : List SecretFinding → SecretFinding → List SecretFinding
  | [], item => [item]
  | existing :: rest, item =>
    if overlapB item existing then
      (if specificity_score item > specificity_score existing then item
       else existing) :: rest
    else
      existing :: sweepStep rest item

/-- The dedup sweep over a (sorted) per-line group (scanner.py lines 527-539). -/
def sweep (items : List SecretFinding) : List SecretFinding :=
  items.foldl sweepStep []

/-- The sort key order used at scanner.py line 526:
`items.sort(key=lambda x: (x.start, x.end))`, i.e. the lexicographic
order on the pair (start, end). -/
def keyLe (a b : SecretFinding) : Prop :=
  a.start < b.start ∨ (a.start = b.start ∧ a.stop ≤ b.stop)

instance : DecidableRel keyLe := fun a b => by
  unfold keyLe; infer_instance

instance : IsTotal SecretFinding keyLe :=
  ⟨by intro a b; unfold keyLe; omega⟩

instance : IsTrans SecretFinding keyLe :=
  ⟨by intro a b c; unfold keyLe; omega⟩

/-- Python's `list.sort` is a stable sort; on the key `(start, end)` it is
the stable insertion sort by `keyLe`. -/
def sortFindings (l : List SecretFinding) : List SecretFinding :=
  l.insertionSort keyLe

/-- The grouping key of a finding (scanner.py line 521). -/
def groupKey (f : SecretFinding) : String × Nat :=
  (f.file_path, f.line_number)

/-- Append a key to a key list unless already present (insertion order of a
Python dict). -/
def kstep (ks : List (String × Nat)) (k : String × Nat) : List (String × Nat) :=
  if k ∈ ks then ks else ks ++ [k]

/-- Record the group key of one finding. -/
def gstep (ks : List (String × Nat)) (f : SecretFinding) : List (String × Nat) :=
  kstep ks (groupKey f)

/-- First-occurrence order of group keys, as produced by the insertion-ordered
Python dict built at scanner.py lines 519-521. -/
def groupKeys (l : List SecretFinding) : List (String × Nat) :=
  l.foldl gstep []

/-- Dedup of one (file, line) group: sort by (start, end), then sweep
(scanner.py lines 524-539). -/
def dedupeGroup (items : List SecretFinding) : List SecretFinding :=
  sweep (sortFindings items)

/-- The whole Deduplicator pass of `run_secret_scan` (scanner.py lines
519-541): group by (file_path, line_number) in first-occurrence order, dedup
each group, and concatenate the surviving findings group by group. -/
def run_dedupe (l : List SecretFinding) : List SecretFinding :=
  (groupKeys l).flatMap fun k =>
    dedupeGroup (l.filter fun f => decide (groupKey f = k))

/-- A finding span is well-formed when `start ≤ end`; every finding the
line scanner emits satisfies this (spans come from regex match spans). -/
def WellFormed (f : SecretFinding) : Prop :=
  f.start ≤ f.stop

instance : DecidablePred WellFormed := fun f => by
  unfold WellFormed; infer_instance

/-- Separation of two spans: the first ends at or before the second starts. -/
def sep (a b : SecretFinding) : Prop :=
  a.stop ≤ b.start

/-! Concrete findings used to test the Deduplicator on degenerate and
ordinary inputs. -/

/-- A finding with span (0, 10) and specificity score 0. -/
def cexIdemA : SecretFinding :=
  ⟨"f", 1, "x", "", "", "HIGH", 0, 10, ""⟩

/-- A finding with the reversed span (5, 0) (constructible through the
`SecretFinding` dataclass, whose span fields are plain ints). -/
def cexIdemB : SecretFinding :=
  ⟨"f", 1, "x", "", "", "HIGH", 5, 0, ""⟩

/-- A finding with span (6, 9) and specificity score 20. -/
def cexIdemC : SecretFinding :=
  ⟨"f", 1, "x", "", "", "HIGH", 6, 9, "aaaaaaaaaaaaaaaaaaaa"⟩

/-- A provider-labelled finding, span (0, 6), score 106. -/
def cexDomA : SecretFinding :=
  ⟨"f", 1, "AWS Access Key", "", "", "HIGH", 0, 6, "AKIAAA"⟩

/-- An unlabelled finding, span (4, 10), score 6. -/
def cexDomB : SecretFinding :=
  ⟨"f", 1, "x", "", "", "MEDIUM", 4, 10, "value6"⟩

/-- A generic finding, span (6, 9), score 3 - 10 = -7. -/
def cexDomC : SecretFinding :=
  ⟨"f", 1, "Generic Key-Value", "", "", "MEDIUM", 6, 9, "abc"⟩

/-- The number of characters kept visible at each edge of a redacted span
(scanner.py lines 223-224): `min(4, secret_len // 4)`. -/
def visibleChars (start stop : Nat) : Nat :=
  min 4 ((stop - start) / 4)

/-- Mirror of `redact_secret` (scanner.py lines 221-229), on the character
list of the line; `text[a:b]` slices become drop/take, `secret_len` is
`stop - start` and `visible_chars` is `visibleChars start stop`. -/
def redact_secret (text : List Char) (start stop : Nat) : List Char :=
  if stop - start ≤ visibleChars start stop * 2 then
    List.replicate (stop - start) '*'
  else
    (text.drop start).take (visibleChars start stop) ++
      List.replicate (stop - start - visibleChars start stop * 2) '*' ++
      (text.drop (stop - visibleChars start stop)).take (visibleChars start stop)

/-- The redacted context built at scanner.py lines 377-378:
`line[:start] + redact_secret(line, start, end) + line[end:]`. -/
def redactedContext (line : List Char) (start stop : Nat) : List Char :=
  line.take start ++ redact_secret line start stop ++ line.drop stop

/-- Truncation applied to `matched_value` by `SecretFinding.to_dict` at
serialization time (scanner.py lines 157-162): values longer than 200
characters are cut to the first 200 plus `"..."`. -/
def to_dict_matched_value (v : String) : String :=
  if v.length > 200 then ⟨v.data.take 200⟩ ++ "..." else v

/-- Modelled from the spec (§4.3, claim C8): the edge-preserving masking
scheme applied to the matched value itself — this is what the spec says is
stored on a finding, to be compared with what the code stores. -/
def maskValueSpec (v : String) : String :=
  ⟨redact_secret v.data 0 v.data.length⟩

/-- Mirror of the `ScanConfig` dataclass (scanner.py lines 17-43) with its
default values.  `log_level` and the external-tool toggles other than
`enable_trufflehog` never influence the modelled core and are kept for
completeness. -/
structure ScanConfig where
  max_file_size : Nat := 5 * 1024 * 1024
  max_repo_size : Nat := 500 * 1024 * 1024
  default_timeout : Nat := 120
  base_path : String := "./repos"
  max_workers : Nat := 4
  scan_depth : Nat := 10
  enable_parallel : Bool := true
  log_level : String := "INFO"
  redact_secrets : Bool := true
  include_line_numbers : Bool := true
  scan_source_files : Bool := true
  generate_lockfile : Bool := true
  enable_trufflehog : Bool := true

/-- The sensitive-extension set (scanner.py lines 67-74, including the
`.java`/`.gradle` update at line 74). -/
def SENSITIVE_EXTENSIONS : List String :=
  [".env", ".key", ".pem", ".jks", ".p12", ".crt", ".cer",
   ".properties", ".credentials", ".config", ".yaml", ".yml",
   ".json", ".xml", ".ini", ".toml", ".conf", ".java", ".gradle"]

/-- The source-extension set (scanner.py line 77). -/
def SOURCE_EXTENSIONS : List String :=
  [".py", ".js", ".ts", ".java", ".go", ".rb", ".php", ".cs", ".scala",
   ".kt", ".swift", ".cpp", ".c"]

/-- The sensitive-filename set (scanner.py lines 79-84). -/
def SENSITIVE_FILENAMES : List String :=
  [".env", ".env.local", ".env.production", ".env.development",
   "credentials", "secrets", "password", "token", "apikey",
   "aws_credentials", "gcp_credentials", "azure_credentials",
   "id_rsa", "id_dsa", "id_ecdsa", "id_ed25519"]

/-- `os.path.splitext(name)[1]` on a bare filename: the extension starts at
the last dot, provided some character before that dot is not a dot (so a
leading dot-run, as in `.env`, starts no extension). -/
def splitextExt (name : String) : String :=
  let cs := name.data
  if cs.contains '.' then
    let afterLast := cs.reverse.takeWhile (fun c => c ≠ '.')
    let dotIdx := cs.length - afterLast.length - 1
    if (cs.take dotIdx).any (fun c => c ≠ '.') then ⟨cs.drop dotIdx⟩ else ""
  else ""

/-- The candidate-file test of `run_secret_scan` (scanner.py lines 465-473).
Note the sensitive-filename test is a substring test
(`any(sens in filename_lower for sens in SENSITIVE_FILENAMES)`), not exact
membership. -/
def isCandidate (cfg : ScanConfig) (file : String) : Bool :=
  SENSITIVE_EXTENSIONS.contains (pyLower (splitextExt file)) ||
  SENSITIVE_FILENAMES.any (fun sens => substrB sens (pyLower file)) ||
  (cfg.scan_source_files && SOURCE_EXTENSIONS.contains (pyLower (splitextExt file)))

/-- Modelled from the claim's words (C9): selection by exact membership of
the (lowercased) filename in the sensitive-filename set, or a sensitive
extension, or — with source scanning enabled — a source extension.  Used
as the spec side of the refinement comparison with `isCandidate`. -/
def isCandidateSpecC9 (cfg : ScanConfig) (file : String) : Bool :=
  SENSITIVE_EXTENSIONS.contains (pyLower (splitextExt file)) ||
  SENSITIVE_FILENAMES.contains (pyLower file) ||
  (cfg.scan_source_files && SOURCE_EXTENSIONS.contains (pyLower (splitextExt file)))

/-- The allowed URL schemes (scanner.py line 131). -/
def ALLOWED_URL_SCHEMES : List String :=
  ["http", "https", "git", "ssh"]

/-- A character allowed in a URL scheme by `urllib.parse`. -/
def isSchemeChar (c : Char) : Bool :=
  c.isAlphanum || c = '+' || c = '-' || c = '.'

/-- `urllib.parse.urlparse(url).scheme`: the lowercased prefix before the
first `:`, when it starts with a letter and uses only scheme characters;
otherwise the empty string. -/
def urlScheme (url : String) : String :=
  let cs := url.data
  let pre := cs.takeWhile (fun c => c ≠ ':')
  if pre.length < cs.length && !pre.isEmpty &&
      (pre.headD 'a').isAlpha && pre.all isSchemeChar then
    ⟨pre.map Char.toLower⟩
  else ""

/-- The part of the URL after a recognized scheme (or the whole URL). -/
def urlRest (url : String) : List Char :=
  let cs := url.data
  if urlScheme url ≠ "" then
    (cs.dropWhile (fun c => c ≠ ':')).drop 1
  else cs

/-- `urllib.parse.urlparse(url).netloc`: present only when the remainder
starts with `//`, up to the next `/`, `?` or `#`. -/
def urlNetloc (url : String) : Option (List Char) :=
  let rest := urlRest url
  if ['/', '/'].isPrefixOf rest then
    some ((rest.drop 2).takeWhile fun c => c ≠ '/' && c ≠ '?' && c ≠ '#')
  else none

/-- `urllib.parse.urlparse(url).hostname`: the netloc without userinfo and
port, lowercased; `none` when there is no (or an empty) netloc. -/
def urlHostname (url : String) : Option String :=
  match urlNetloc url with
  | none => none
  | some nl =>
    let afterAt := ((nl.reverse.takeWhile fun c => c ≠ '@').reverse)
    let host := afterAt.takeWhile fun c => c ≠ ':'
    if host.isEmpty then none else some ⟨host.map Char.toLower⟩

/-- Mirror of `validate_repo_url` (scanner.py lines 189-208): scheme must be
allowed, and the hostname must be neither a loopback name nor start like a
private address. -/
def validate_repo_url (url : String) : Bool × String :=
  if !(ALLOWED_URL_SCHEMES.contains (urlScheme url)) then
    (false, "Invalid scheme: " ++ urlScheme url)
  else
    match urlHostname url with
    | some h =>
      if h = "localhost" || h = "127.0.0.1" || h = "0.0.0.0" then
        (false, "Localhost URLs not allowed")
      else if "10.".data.isPrefixOf h.data || "172.".data.isPrefixOf h.data ||
          "192.168.".data.isPrefixOf h.data then
        (false, "Private IP addresses not allowed")
      else (true, "")
    | none => (true, "")

/-- The keyword arguments `clone_repository` passes to
`git.Repo.clone_from` (scanner.py lines 306-311). -/
structure CloneFromArgs where
  url : String
  path : String
  depth : Option Nat
  single_branch : Bool
  kill_after_timeout : Option Nat

/-- The concrete `Repo.clone_from` call of scanner.py lines 306-311: shallow
(`depth=1`), `single_branch=True`, and no time bound of any kind —
`clone_repository`'s `timeout` parameter appears nowhere in its body. -/
def cloneFromArgs (repo_url repo_path : String) : CloneFromArgs :=
  ⟨repo_url, repo_path, some 1, true, none⟩

/-- The external-world outcome of one clone attempt: disk-space check
result, wall-clock seconds the fetch takes, whether `Repo.clone_from`
raises, and the cloned tree's on-disk size. -/
structure CloneEnv where
  disk_ok : Bool
  clone_seconds : Nat
  clone_error : Option String
  repo_size : Nat

/-- Mirror of `clone_repository` (scanner.py lines 286-328).  The body
validates the URL, checks disk space, performs the unbounded
`Repo.clone_from` call, and compares the tree size against the DEFAULT
`ScanConfig().max_repo_size` (line 320); the `timeout` parameter (default
300 in the source) is never consulted.  The oversize message's float
formatting is abbreviated. -/
def clone_repository (repo_url repo_path : String) (timeout : Nat)
    (env : CloneEnv) : Bool × String :=
  if !(validate_repo_url repo_url).1 then
    (false, (validate_repo_url repo_url).2)
  else if !env.disk_ok then
    (false, "Insufficient disk space")
  else
    match env.clone_error with
    | some e => (false, "Clone failed: " ++ e)
    | none =>
      if env.repo_size > ScanConfig.max_repo_size {} then
        (false, "Repository too large")
      else (true, "")

/-- The status of the `ScanResult` produced by `scan_repository`
(scanner.py lines 1000-1045): "failed" when `clone_repository` reports
failure, otherwise "completed".  The secret/dependency scans and the
summary never change the status; the unexpected-exception path yielding
"error" is outside this model. -/
def scan_repository_status (repo_url repo_path : String) (cfg : ScanConfig)
    (env : CloneEnv) : String :=
  if (clone_repository repo_url repo_path cfg.default_timeout env).1 then
    "completed"
  else "failed"

/-- A concrete clone environment: a healthy clone of a valid public URL
that takes 200 wall-clock seconds — longer than the default timeout of
120 seconds. -/
def envSlowClone : CloneEnv :=
  ⟨true, 200, none, 1000⟩

/-- `urllib.parse.urlparse(url).path`: what follows the netloc (or the
scheme) up to a query/fragment separator. -/
def urlPath (url : String) : String :=
  let rest := urlRest url
  let afterNetloc :=
    if ['/', '/'].isPrefixOf rest then
      (rest.drop 2).dropWhile fun c => c ≠ '/' && c ≠ '?' && c ≠ '#'
    else rest
  ⟨afterNetloc.takeWhile fun c => c ≠ '?' && c ≠ '#'⟩

/-- Mirror of `sanitize_repo_name` (scanner.py lines 210-219): the URL path
with surrounding slashes stripped and inner slashes replaced by `_`, a
trailing `.git` dropped, then an md5-derived 8-character suffix.  The md5
hex digest is kept as the parameter `md5hex8`; only its determinism matters
to the claims below. -/
def sanitize_repo_name (md5hex8 : String → String) (url : String) : String :=
  let stripped := ((urlPath url).data.dropWhile (fun c => c = '/')).reverse
    |>.dropWhile (fun c => c = '/') |>.reverse
  let repl := stripped.map fun c => if c = '/' then '_' else c
  let path := if ".git".data.isSuffixOf repl then repl.take (repl.length - 4)
    else repl
  ⟨path⟩ ++ "_" ++ md5hex8 url

/-- The clone working directory of a scan (scanner.py lines 259-263):
`os.path.join(config.base_path, sanitize_repo_name(repo_url))`; the join is
a `/`-separated concatenation for the relative names involved. -/
def repoWorkdir (md5hex8 : String → String) (base_path repo_url : String) :
    String :=
  base_path ++ "/" ++ sanitize_repo_name md5hex8 repo_url

/-! The scan-orchestration model for two concurrent submissions of the SAME
repository URL (main.py).  `scan_repo_async` (main.py lines 354-395) writes
status "queued" (line 375) and schedules `run_scan_background` (line 383);
`run_scan_background` (lines 325-352) writes status "scanning" (line 328),
runs `scan_repository` (line 332) — whose first real phase is the clone —
and writes "completed" (line 336).  Neither main.py nor scanner.py contains
any per-repository lock or any other cross-task synchronization, so each
task can take its next program step from every system state. -/

/-- The program counter of one background scan task. -/
inductive Phase where
  | created        -- request accepted, before the registry write
  | queued         -- status "queued" written (main.py line 375)
  | scanning       -- status "scanning" written (main.py line 328)
  | cloning        -- inside clone_repository (scanner.py line 1003)
  | scanningFiles  -- secret/dependency scanning after the clone
  | done           -- status "completed" written (main.py line 336)
deriving DecidableEq

/-- Program order of one scan task, one atomic step at a time. -/
def Phase.next : Phase → Phase
  | Phase.created => Phase.queued
  | Phase.queued => Phase.scanning
  | Phase.scanning => Phase.cloning
  | Phase.cloning => Phase.scanningFiles
  | Phase.scanningFiles => Phase.done
  | Phase.done => Phase.done

/-- Position of a phase in program order. -/
def phaseIdx : Phase → Nat
  | Phase.created => 0
  | Phase.queued => 1
  | Phase.scanning => 2
  | Phase.cloning => 3
  | Phase.scanningFiles => 4
  | Phase.done => 5

/-- The Registry status string each phase corresponds to
(main.py lines 328, 336, 375). -/
def statusOf : Phase → String
  | Phase.created => ""
  | Phase.queued => "queued"
  | Phase.scanning => "scanning"
  | Phase.cloning => "scanning"
  | Phase.scanningFiles => "scanning"
  | Phase.done => "completed"

/-- Joint state of two scans submitted for the same repository URL. -/
structure TwoScans where
  s1 : Phase
  s2 : Phase
deriving DecidableEq

/-- Interleaving semantics: at each step one of the two tasks advances.
The code has no lock and no other cross-task wait, so no step is guarded
by the other task's phase. -/
inductive ScanStep : TwoScans → TwoScans → Prop where
  | left (s : TwoScans) : ScanStep s ⟨s.s1.next, s.s2⟩
  | right (s : TwoScans) : ScanStep s ⟨s.s1, s.s2.next⟩

/-- Both submissions start before their registry writes. -/
def initScans : TwoScans :=
  ⟨Phase.created, Phase.created⟩

/-- States reachable from the initial state under the interleaving. -/
inductive ReachableScan : TwoScans → Prop where
  | init : ReachableScan initScans
  | step {s t : TwoScans} : ReachableScan s → ScanStep s t → ReachableScan t

/-- A finite execution: the list of successor states visited from `s`. -/
inductive TraceFrom : TwoScans → List TwoScans → Prop where
  | nil (s : TwoScans) : TraceFrom s []
  | cons {s t : TwoScans} {rest : List TwoScans} :
      ScanStep s t → TraceFrom t rest → TraceFrom s (t :: rest)

/-! A small backtracking regex engine, sufficient for the SECRET_PATTERNS
library (scanner.py lines 87-129): in those patterns every quantifier
applies to a single character class, so repetition is a first-class
constructor over classes and the engine is structurally recursive.  Match
enumeration follows the backtracking priority order of CPython's `re`
(leftmost start, greedy quantifiers, left alternative first), so the HEAD
of the enumeration is the match `re` reports.  Classes are matched over
ASCII, which covers every input considered here. -/

/-- One bracket-class item: a literal character or a range. -/
inductive ClassItem where
  | single (c : Char)
  | range (lo hi : Char)

/-- A character matcher: `.` (anything but a newline) or a bracket class,
possibly negated. -/
inductive CharClass where
  | dot
  | set (items : List ClassItem) (neg : Bool)

def ClassItem.matches : ClassItem → Char → Bool
  | ClassItem.single c, x => x = c
  | ClassItem.range lo hi, x => lo ≤ x && x ≤ hi

/-- ASCII case swap, for IGNORECASE class matching. -/
def swapCase (c : Char) : Char :=
  if c.isUpper then c.toLower else if c.isLower then c.toUpper else c

/-- Class membership under an optional IGNORECASE flag: a character matches
when it, or (case-insensitively) its case-swap, hits the class. -/
def CharClass.matches (ci : Bool) : CharClass → Char → Bool
  | CharClass.dot, c => c ≠ '\n'
  | CharClass.set items neg, c =>
    let hit := items.any (fun it => it.matches c) ||
      (ci && items.any (fun it => it.matches (swapCase c)))
    if neg then !hit else hit

/-- Regular expressions as used by the pattern library.  `rep p lo none`
is `p{lo,}`, `rep p lo (some hi)` is `p{lo,hi}`; both are greedy, as in
the source patterns. -/
inductive RE where
  | eps
  | cls (p : CharClass)
  | cat (a b : RE)
  | alt (a b : RE)
  | opt (a : RE)
  | rep (p : CharClass) (lo : Nat) (hi : Option Nat)
  | group (idx : Nat) (a : RE)

/-- Closed capture groups, most recently closed first — mirroring the mark
stack from which CPython derives `lastindex` and group spans. -/
structure Caps where
  spans : List (Nat × Nat × Nat)

/-- Length of the longest run of characters of `s` from position `i`
matching `p`, capped at `cap`. -/
def maxRun (ci : Bool) (p : CharClass) (s : List Char) : Nat → Nat → Nat
  | _, 0 => 0
  | i, cap + 1 =>
    match s[i]? with
    | some c => if p.matches ci c then maxRun ci p s (i + 1) cap + 1 else 0
    | none => 0

/-- All ways a regex can match starting at position `i` of `s`, as
(end position, captures), in backtracking priority order. -/
def matchSet (ci : Bool) (s : List Char) : RE → Nat → Caps → List (Nat × Caps)
  | RE.eps, i, g => [(i, g)]
  | RE.cls p, i, g =>
    match s[i]? with
    | some c => if p.matches ci c then [(i + 1, g)] else []
    | none => []
  | RE.cat a b, i, g =>
    (matchSet ci s a i g).flatMap fun m => matchSet ci s b m.1 m.2
  | RE.alt a b, i, g => matchSet ci s a i g ++ matchSet ci s b i g
  | RE.opt a, i, g => matchSet ci s a i g ++ [(i, g)]
  | RE.rep p lo hi, i, g =>
    let cap := match hi with
      | some h => h
      | none => s.length - i
    let m := maxRun ci p s i cap
    (List.range (m + 1 - lo)).map fun d => (i + (m - d), g)
  | RE.group idx a, i, g =>
    (matchSet ci s a i g).map fun m => (m.1, ⟨(idx, i, m.1) :: m.2.spans⟩)

/-- The leftmost match at or after `start` (fuel-bounded scan over start
positions): `(matchStart, matchEnd, captures)`. -/
def searchFrom (ci : Bool) (re : RE) (s : List Char) :
    Nat → Nat → Option (Nat × Nat × Caps)
  | _, 0 => none
  | start, fuel + 1 =>
    if start > s.length then none
    else
      match matchSet ci s re start ⟨[]⟩ with
      | m :: _ => some (start, m.1, m.2)
      | [] => searchFrom ci re s (start + 1) fuel

/-- Non-overlapping match enumeration, as `pattern.finditer(line)`: after a
match the scan resumes at its end (one past it for a zero-width match). -/
def finditerAux (ci : Bool) (re : RE) (s : List Char) :
    Nat → Nat → List (Nat × Nat × Caps)
  | 0, _ => []
  | fuel + 1, start =>
    match searchFrom ci re s start (s.length + 1 - start) with
    | none => []
    | some (ms, me, g) =>
      (ms, me, g) :: finditerAux ci re s fuel (if ms < me then me else ms + 1)

/-- `pattern.finditer(line)` (scanner.py line 361). -/
def finditer (ci : Bool) (re : RE) (s : List Char) : List (Nat × Nat × Caps) :=
  finditerAux ci re s (s.length + 2) 0

/-! The SECRET_PATTERNS library (scanner.py lines 87-129), transcribed
pattern by pattern.  `src` is the regex source string (the dataclass's
`pattern` field stores `pattern.pattern[:200]`); `\x7b`/`\x7d` denote
literal braces. -/

/-- Literal character. -/
def chr (c : Char) : RE :=
  RE.cls (CharClass.set [ClassItem.single c] false)

/-- Literal string. -/
def lit (str : String) : RE :=
  str.data.foldr (fun c r => RE.cat (chr c) r) RE.eps

/-- Concatenation of a pattern list. -/
def cats (l : List RE) : RE :=
  l.foldr RE.cat RE.eps

def rng (a b : Char) : ClassItem := ClassItem.range a b

def one (c : Char) : ClassItem := ClassItem.single c

def cset (items : List ClassItem) : CharClass := CharClass.set items false

def cnset (items : List ClassItem) : CharClass := CharClass.set items true

/-- `['\"]` — a quote. -/
def ccQuote : CharClass := cset [one '\'', one '"']

/-- `[^'\"]` — anything but a quote. -/
def ccNotQuote : CharClass := cnset [one '\'', one '"']

/-- The `\s` items (ASCII). -/
def wsItems : List ClassItem :=
  [one ' ', one '\t', one '\n', one '\r', one '\x0b', one '\x0c']

def ccWs : CharClass := cset wsItems

def ccNotWs : CharClass := cnset wsItems

/-- `[0-9]`. -/
def ccDigit : CharClass := cset [rng '0' '9']

/-- `[0-9A-Z]`. -/
def ccUpperDigit : CharClass := cset [rng '0' '9', rng 'A' 'Z']

/-- `[A-Za-z0-9_]` (`\w`, ASCII). -/
def ccWord : CharClass := cset [rng 'A' 'Z', rng 'a' 'z', rng '0' '9', one '_']

/-- `[a-zA-Z0-9]`. -/
def ccAlnum : CharClass := cset [rng 'a' 'z', rng 'A' 'Z', rng '0' '9']

/-- `[a-zA-Z0-9_\-]` (also `[A-Za-z0-9_-]`, `[0-9A-Za-z\-_]`). -/
def ccWordDash : CharClass :=
  cset [rng 'a' 'z', rng 'A' 'Z', rng '0' '9', one '_', one '-']

/-- `[0-9a-zA-Z/+]`. -/
def ccB64Slash : CharClass :=
  cset [rng '0' '9', rng 'a' 'z', rng 'A' 'Z', one '/', one '+']

/-- `[A-Za-z0-9+/]`. -/
def ccB64 : CharClass :=
  cset [rng 'A' 'Z', rng 'a' 'z', rng '0' '9', one '+', one '/']

/-- `[A-Za-z0-9\-_.+\/=]`. -/
def ccGenericVal : CharClass :=
  cset [rng 'A' 'Z', rng 'a' 'z', rng '0' '9', one '-', one '_', one '.',
    one '+', one '/', one '=']

/-- `[\w\.-]` (ASCII `\w`). -/
def ccWordDotDash : CharClass :=
  cset [rng 'A' 'Z', rng 'a' 'z', rng '0' '9', one '_', one '.', one '-']

/-- `\s*`. -/
def ws0 : RE := RE.rep ccWs 0 none

/-- `[:=]`. -/
def colonEq : RE := RE.cls (cset [one ':', one '='])

/-- `['\"]?`. -/
def quoteOpt : RE := RE.opt (RE.cls ccQuote)

/-- One pattern library entry: regex, IGNORECASE flag, regex source text,
and the human-readable label. -/
structure PatternEntry where
  re : RE
  ci : Bool
  src : String
  label : String

/-- `(AKIA[0-9A-Z]{16})`. -/
def patAwsAccess : PatternEntry :=
  ⟨RE.group 1 (cats [lit "AKIA", RE.rep ccUpperDigit 16 (some 16)]),
   false, "(AKIA[0-9A-Z]\x7b16\x7d)", "AWS Access Key"⟩

/-- `(?i)aws(.{0,20})?[\'\"]([0-9a-zA-Z/+]{40})[\'\"]`. -/
def patAwsSecret : PatternEntry :=
  ⟨cats [lit "aws", RE.opt (RE.group 1 (RE.rep CharClass.dot 0 (some 20))),
     RE.cls ccQuote, RE.group 2 (RE.rep ccB64Slash 40 (some 40)),
     RE.cls ccQuote],
   true, "(?i)aws(.\x7b0,20\x7d)?[\\'\\\"]([0-9a-zA-Z/+]\x7b40\x7d)[\\'\\\"]",
   "AWS Secret Key"⟩

/-- `ghp_[A-Za-z0-9_]{36}`. -/
def patGithubPersonal : PatternEntry :=
  ⟨cats [lit "ghp_", RE.rep ccWord 36 (some 36)],
   false, "ghp_[A-Za-z0-9_]\x7b36\x7d", "GitHub Personal Token"⟩

/-- `gho_[A-Za-z0-9_]{36}`. -/
def patGithubOauth : PatternEntry :=
  ⟨cats [lit "gho_", RE.rep ccWord 36 (some 36)],
   false, "gho_[A-Za-z0-9_]\x7b36\x7d", "GitHub OAuth Token"⟩

/-- `github_pat_[A-Za-z0-9_]{82}`. -/
def patGithubFineGrained : PatternEntry :=
  ⟨cats [lit "github_pat_", RE.rep ccWord 82 (some 82)],
   false, "github_pat_[A-Za-z0-9_]\x7b82\x7d", "GitHub Fine-grained PAT"⟩

/-- `(?i)(api[-_]?key|apikey)\s*[:=]\s*['\"]?([a-zA-Z0-9_\-]{20,})`. -/
def patApiKey : PatternEntry :=
  ⟨cats [RE.group 1 (RE.alt
      (cats [lit "api", RE.opt (RE.cls (cset [one '-', one '_'])), lit "key"])
      (lit "apikey")),
     ws0, colonEq, ws0, quoteOpt, RE.group 2 (RE.rep ccWordDash 20 none)],
   true,
   "(?i)(api[-_]?key|apikey)\\s*[:=]\\s*['\\\"]?([a-zA-Z0-9_\\-]\x7b20,\x7d)",
   "API Key"⟩

/-- `(?i)(secret[-_]?key|secretkey)\s*[:=]\s*['\"]?([a-zA-Z0-9_\-]{20,})`. -/
def patSecretKey : PatternEntry :=
  ⟨cats [RE.group 1 (RE.alt
      (cats [lit "secret", RE.opt (RE.cls (cset [one '-', one '_'])),
        lit "key"])
      (lit "secretkey")),
     ws0, colonEq, ws0, quoteOpt, RE.group 2 (RE.rep ccWordDash 20 none)],
   true,
   "(?i)(secret[-_]?key|secretkey)\\s*[:=]\\s*['\\\"]?([a-zA-Z0-9_\\-]\x7b20,\x7d)",
   "Secret Key"⟩

/-- `(?i)(password|passwd|pwd)\s*[:=]\s*['\"]([^'\"]{8,})['\"]`. -/
def patPassword : PatternEntry :=
  ⟨cats [RE.group 1 (RE.alt (lit "password") (RE.alt (lit "passwd")
      (lit "pwd"))),
     ws0, colonEq, ws0, RE.cls ccQuote,
     RE.group 2 (RE.rep ccNotQuote 8 none), RE.cls ccQuote],
   true,
   "(?i)(password|passwd|pwd)\\s*[:=]\\s*['\\\"]([^'\\\"]\x7b8,\x7d)['\\\"]",
   "Password"⟩

/-- `(?i)(database_url|db_url)\s*[:=]\s*['\"]?([^'\"]+)`. -/
def patDatabaseUrl : PatternEntry :=
  ⟨cats [RE.group 1 (RE.alt (lit "database_url") (lit "db_url")),
     ws0, colonEq, ws0, quoteOpt, RE.group 2 (RE.rep ccNotQuote 1 none)],
   true,
   "(?i)(database_url|db_url)\\s*[:=]\\s*['\\\"]?([^'\\\"]+)",
   "Database URL"⟩

/-- `(mongodb(\+srv)?://[^\s]+)`. -/
def patMongo : PatternEntry :=
  ⟨RE.group 1 (cats [lit "mongodb", RE.opt (RE.group 2 (lit "+srv")),
     lit "://", RE.rep ccNotWs 1 none]),
   false, "(mongodb(\\+srv)?://[^\\s]+)", "MongoDB Connection String"⟩

/-- `(postgres(ql)?://[^\s]+)`. -/
def patPostgres : PatternEntry :=
  ⟨RE.group 1 (cats [lit "postgres", RE.opt (RE.group 2 (lit "ql")),
     lit "://", RE.rep ccNotWs 1 none]),
   false, "(postgres(ql)?://[^\\s]+)", "PostgreSQL Connection String"⟩

/-- `(eyJ[A-Za-z0-9_-]{10,}\.[A-Za-z0-9_-]{10,}\.[A-Za-z0-9_-]{10,})`. -/
def patJwt : PatternEntry :=
  ⟨RE.group 1 (cats [lit "eyJ", RE.rep ccWordDash 10 none, chr '.',
     RE.rep ccWordDash 10 none, chr '.', RE.rep ccWordDash 10 none]),
   false,
   "(eyJ[A-Za-z0-9_-]\x7b10,\x7d\\.[A-Za-z0-9_-]\x7b10,\x7d\\.[A-Za-z0-9_-]\x7b10,\x7d)",
   "JWT Token"⟩

/-- `-----BEGIN (RSA |EC |DSA )?PRIVATE KEY-----`. -/
def patPrivateKey : PatternEntry :=
  ⟨cats [lit "-----BEGIN ",
     RE.opt (RE.group 1 (RE.alt (lit "RSA ") (RE.alt (lit "EC ")
       (lit "DSA ")))),
     lit "PRIVATE KEY-----"],
   false, "-----BEGIN (RSA |EC |DSA )?PRIVATE KEY-----", "Private Key"⟩

/-- `xox[pborsa]-[0-9]{12}-[0-9]{12}-[a-zA-Z0-9]{24,}`. -/
def patSlack : PatternEntry :=
  ⟨cats [lit "xox",
     RE.cls (cset [one 'p', one 'b', one 'o', one 'r', one 's', one 'a']),
     chr '-', RE.rep ccDigit 12 (some 12), chr '-',
     RE.rep ccDigit 12 (some 12), chr '-', RE.rep ccAlnum 24 none],
   false,
   "xox[pborsa]-[0-9]\x7b12\x7d-[0-9]\x7b12\x7d-[a-zA-Z0-9]\x7b24,\x7d",
   "Slack Token"⟩

/-- `AIza[0-9A-Za-z\-_]{35}`. -/
def patGoogle : PatternEntry :=
  ⟨cats [lit "AIza", RE.rep ccWordDash 35 (some 35)],
   false, "AIza[0-9A-Za-z\\-_]\x7b35\x7d", "Google API Key"⟩

/-- `sk_live_[0-9a-zA-Z]{24,}`. -/
def patStripe : PatternEntry :=
  ⟨cats [lit "sk_live_", RE.rep ccAlnum 24 none],
   false, "sk_live_[0-9a-zA-Z]\x7b24,\x7d", "Stripe Live Secret Key"⟩

/-- `(?i)(secret|password|key|token)\s*[:=]\s*['\"]?([A-Za-z0-9+/]{40,}={0,2})`. -/
def patBase64 : PatternEntry :=
  ⟨cats [RE.group 1 (RE.alt (lit "secret") (RE.alt (lit "password")
      (RE.alt (lit "key") (lit "token")))),
     ws0, colonEq, ws0, quoteOpt,
     RE.group 2 (cats [RE.rep ccB64 40 none,
       RE.rep (cset [one '=']) 0 (some 2)])],
   true,
   "(?i)(secret|password|key|token)\\s*[:=]\\s*['\\\"]?([A-Za-z0-9+/]\x7b40,\x7d=\x7b0,2\x7d)",
   "Base64 Encoded Secret"⟩

/-- The generic key-value pattern (scanner.py line 128). -/
def patGeneric : PatternEntry :=
  ⟨cats [RE.opt (cats [RE.rep ccWordDotDash 0 none, chr '.']),
     RE.alt (cats [lit "api", RE.opt (RE.cls (cset [one '-', one '_',
         one '.'])), lit "key"])
     (RE.alt (lit "apikey")
     (RE.alt (lit "apisecret")
     (RE.alt (cats [lit "client", RE.opt (RE.cls (cset [one '_', one '-',
         one '.'])), lit "secret"])
     (RE.alt (cats [lit "access", RE.opt (RE.cls (cset [one '_', one '-',
         one '.'])), lit "token"])
     (RE.alt (lit "access_token")
     (RE.alt (lit "client_secret")
     (RE.alt (cats [lit "secret", RE.opt (RE.cls (cset [one '-', one '_'])),
         lit "key"])
     (RE.alt (lit "secretkey")
     (RE.alt (lit "token")
     (RE.alt (lit "password") (lit "pwd"))))))))))),
     ws0, colonEq, ws0, quoteOpt,
     RE.group 1 (RE.rep ccGenericVal 4 (some 200))],
   true,
   "(?i)(?:[\\w\\.-]*\\.)?(?:api[-_.]?key|apikey|apisecret|client[_\\-.]?secret|access[_\\-.]?token|access_token|client_secret|secret[-_]?key|secretkey|token|password|pwd)\\s*[:=]\\s*['\\\"]?([A-Za-z0-9\\-_.+\\/=]\x7b4,200\x7d)",
   "Generic Key-Value"⟩

/-- The ordered pattern library (scanner.py lines 87-129). -/
def SECRET_PATTERNS : List PatternEntry :=
  [patAwsAccess, patAwsSecret, patGithubPersonal, patGithubOauth,
   patGithubFineGrained, patApiKey, patSecretKey, patPassword,
   patDatabaseUrl, patMongo, patPostgres, patJwt, patPrivateKey, patSlack,
   patGoogle, patStripe, patBase64, patGeneric]

/-- The secret span of one match, as computed at scanner.py lines 362-372:
the last-closed capture group's span when one exists (`match.lastindex`),
otherwise the whole match span. -/
def matchSpan (ms me : Nat) (g : Caps) : Nat × Nat :=
  match g.spans with
  | [] => (ms, me)
  | (_, i, j) :: _ => (i, j)

/-- Python's `str.isspace` characters relevant to `str.strip()` (ASCII). -/
def pyIsSpaceChar (c : Char) : Bool :=
  c = ' ' || c = '\t' || c = '\n' || c = '\r' || c = '\x0b' || c = '\x0c'

/-- Python's `str.strip()` (ASCII whitespace). -/
def pyStrip (s : String) : String :=
  ⟨((s.data.dropWhile pyIsSpaceChar).reverse.dropWhile pyIsSpaceChar).reverse⟩

/-- One `SecretFinding` as built at scanner.py lines 374-396 from the match
of `entry` at `(ms, me)` on `line`.  Fields positionally: file_path,
line_number, secret_type, pattern, context, severity, start, end,
matched_value. -/
def mkFinding (cfg : ScanConfig) (relPath : String) (line_num : Nat)
    (line : List Char) (entry : PatternEntry) (ms me : Nat) (g : Caps) :
    SecretFinding :=
  let sp := matchSpan ms me g
  ⟨relPath,
   if cfg.include_line_numbers then line_num else 0,
   entry.label,
   ⟨entry.src.data.take 200⟩,
   pyStrip ⟨if cfg.redact_secrets then redactedContext line sp.1 sp.2
     else line⟩,
   if substrB "password" (pyLower entry.label) ||
       substrB "key" (pyLower entry.label) ||
       substrB "token" (pyLower entry.label) then "HIGH" else "MEDIUM",
   (sp.1 : Int), (sp.2 : Int),
   ⟨(line.drop sp.1).take (sp.2 - sp.1)⟩⟩

/-- All findings of one line (scanner.py lines 360-396): every pattern of
the library in order, every non-overlapping match. -/
def findingsOfLine (cfg : ScanConfig) (relPath : String) (line_num : Nat)
    (line : String) : List SecretFinding :=
  SECRET_PATTERNS.flatMap fun entry =>
    (finditer entry.ci entry.re line.data).map fun m =>
      mkFinding cfg relPath line_num line.data entry m.1 m.2.1 m.2.2

/-- Line scanning of a decoded file, lines numbered from 1
(scanner.py line 359). -/
def scanLines (cfg : ScanConfig) (relPath : String) (lines : List String) :
    List SecretFinding :=
  lines.enum.flatMap fun p => findingsOfLine cfg relPath (p.1 + 1) p.2

/-- Mirror of `should_ignore_file` (scanner.py lines 231-234): each of the
IGNORE_PATTERNS regexes (line 133-141) is a substring or suffix test on
the lowercased path. -/
def should_ignore_file (filepath : String) : Bool :=
  substrB "test_" (pyLower filepath) || substrB "test/" (pyLower filepath) ||
  substrB "mock_" (pyLower filepath) || substrB "mock/" (pyLower filepath) ||
  substrB "fixture_" (pyLower filepath) ||
  substrB "fixture/" (pyLower filepath) ||
  substrB "example_" (pyLower filepath) ||
  substrB "example/" (pyLower filepath) ||
  ".example".data.isSuffixOf (pyLower filepath).data ||
  ".sample".data.isSuffixOf (pyLower filepath).data ||
  ".template".data.isSuffixOf (pyLower filepath).data

/-- Mirror of `is_text_file` (scanner.py lines 236-248) on the sampled byte
chunk: reject on a null byte; an empty chunk is non-text
(`... if chunk else False`); otherwise require a printable/whitespace
ratio above 0.85.  The float comparison `text_chars/len(chunk) > 0.85` is
expressed by cross-multiplication, which agrees with the double-precision
comparison at every chunk size the 8192-byte sample admits. -/
def is_text_file (chunk : List Nat) : Bool :=
  if chunk.contains 0 then false
  else if chunk.isEmpty then false
  else
    20 * (chunk.filter fun b =>
      (32 ≤ b && b ≤ 126) || b = 9 || b = 10 || b = 13).length >
      17 * chunk.length

/-- Mirror of the gating of `scan_file_for_secrets` (scanner.py lines
331-401): an ignored path, an oversized file, or a non-text file yields no
findings; otherwise every decoded line is scanned.  The file is presented
by its path (used both for the ignore test and, relative to the repo root,
as the finding's file_path), its size, the byte sample read by
`is_text_file`, and its decoded lines. -/
def scan_file_for_secrets (relPath : String) (fileSize : Nat)
    (chunk : List Nat) (lines : List String) (cfg : ScanConfig) :
    List SecretFinding :=
  if should_ignore_file relPath then []
  else if fileSize > cfg.max_file_size then []
  else if !(is_text_file chunk) then []
  else scanLines cfg relPath lines

/-- A candidate file whose line 3 is `api_key: "ABCDEFGHIJKLMNOPQRST"`, as
decoded by `readlines()`. -/
def cexFileLines : List String :=
  ["# configuration\n", "\n", "api_key: \"ABCDEFGHIJKLMNOPQRST\""]

/-- The same file's bytes (ASCII), as sampled by `is_text_file`. -/
def cexFileBytes : List Nat :=
  [35, 32, 99, 111, 110, 102, 105, 103, 117, 114, 97, 116, 105, 111, 110, 10,
   10, 97, 112, 105, 95, 107, 101, 121, 58, 32, 34, 65, 66, 67, 68, 69, 70,
   71, 72, 73, 74, 75, 76, 77, 78, 79, 80, 81, 82, 83, 84, 34]

/-- The single finding the scan of that file must produce after dedup. -/
def cexDetectionFinding : SecretFinding :=
  ⟨"config.yaml", 3, "API Key",
   "(?i)(api[-_]?key|apikey)\\s*[:=]\\s*['\\\"]?([a-zA-Z0-9_\\-]\x7b20,\x7d)",
   "api_key: \"ABCD************QRST\"", "HIGH", 10, 30,
   "ABCDEFGHIJKLMNOPQRST"⟩

/-! ### Lemmas about the dedup sweep -/

theorem sweepStep_ne_nil (kept : List SecretFinding) (i : SecretFinding) :
    sweepStep kept i ≠ [] := by
  cases kept with
  | nil => simp [sweepStep]
  | cons e rest =>
    unfold sweepStep
    split <;> simp

theorem mem_sweepStep {kept : List SecretFinding} {i k : SecretFinding}
    (h : k ∈ sweepStep kept i) : k ∈ kept ∨ k = i := by
  induction kept with
  | nil => simp [sweepStep] at h; exact Or.inr h
  | cons e rest ih =>
    unfold sweepStep at h
    split at h
    · rcases List.mem_cons.1 h with h1 | h1
      · split at h1
        · exact Or.inr h1
        · exact Or.inl (h1 ▸ List.mem_cons_self e rest)
      · exact Or.inl (List.mem_cons_of_mem e h1)
    · rcases List.mem_cons.1 h with h1 | h1
      · exact Or.inl (h1 ▸ List.mem_cons_self e rest)
      · rcases ih h1 with h2 | h2
        · exact Or.inl (List.mem_cons_of_mem e h2)
        · exact Or.inr h2

theorem sweepStep_of_no_overlap {kept : List SecretFinding} {i : SecretFinding}
    (h : ∀ e ∈ kept, overlapB i e = false) :
    sweepStep kept i = kept ++ [i] := by
  induction kept with
  | nil => rfl
  | cons e rest ih =>
    have he : overlapB i e = false := h e (List.mem_cons_self e rest)
    unfold sweepStep
    rw [he]
    simp only [Bool.false_eq_true, if_false, List.cons_append, List.cons.injEq,
      true_and]
    exact ih fun e' he' => h e' (List.mem_cons_of_mem e he')

theorem foldl_sweepStep_no_overlap :
    ∀ (items kept : List SecretFinding),
    (∀ x ∈ items, ∀ e ∈ kept, overlapB x e = false) →
    List.Pairwise (fun a b => overlapB b a = false) items →
    items.foldl sweepStep kept = kept ++ items := by
  intro items
  induction items with
  | nil => intro kept _ _; simp
  | cons x rest ih =>
    intro kept hcross hpw
    have hx : sweepStep kept x = kept ++ [x] :=
      sweepStep_of_no_overlap fun e he => hcross x (List.mem_cons_self x rest) e he
    have hpw' := List.pairwise_cons.1 hpw
    calc (x :: rest).foldl sweepStep kept
        = rest.foldl sweepStep (sweepStep kept x) := rfl
      _ = rest.foldl sweepStep (kept ++ [x]) := by rw [hx]
      _ = (kept ++ [x]) ++ rest := by
          refine ih (kept ++ [x]) ?_ hpw'.2
          intro y hy e he
          rcases List.mem_append.1 he with h1 | h1
          · exact hcross y (List.mem_cons_of_mem x hy) e h1
          · have : e = x := by simpa using h1
            exact this ▸ hpw'.1 y hy
      _ = kept ++ x :: rest := by simp

theorem sweep_of_pairwise {items : List SecretFinding}
    (h : List.Pairwise (fun a b => overlapB b a = false) items) :
    sweep items = items := by
  have := foldl_sweepStep_no_overlap items [] (by intro x _ e he; simp at he) h
  simpa [sweep] using this

theorem overlapB_true {i e : SecretFinding} :
    overlapB i e = true ↔ e.start < i.stop ∧ i.start < e.stop := by
  simp [overlapB]

theorem sweepStep_head_sep {e i : SecretFinding} {rest : List SecretFinding}
    (hch : ∀ y ∈ rest.head?, sep e y) (hei : sep e i) :
    ∀ y ∈ (sweepStep rest i).head?, sep e y := by
  cases rest with
  | nil =>
    intro y hy
    simp [sweepStep] at hy
    exact hy ▸ hei
  | cons r rest' =>
    intro y hy
    unfold sweepStep at hy
    split at hy
    · split at hy
      · simp at hy; exact hy ▸ hei
      · simp at hy; exact hy ▸ hch r (by simp)
    · simp at hy; exact hy ▸ hch r (by simp)

theorem sweepStep_chain {kept : List SecretFinding} {i : SecretFinding}
    (hwf : ∀ k ∈ kept, WellFormed k) (hwfi : WellFormed i)
    (hch : List.Chain' sep kept)
    (hle : ∀ k ∈ kept, keyLe k i) :
    List.Chain' sep (sweepStep kept i) := by
  induction kept with
  | nil => simp [sweepStep]
  | cons e rest ih =>
    unfold sweepStep
    by_cases hov : overlapB i e = true
    · rw [if_pos hov]
      cases rest with
      | nil => split <;> simp
      | cons r rest' =>
        exfalso
        have h1 : sep e r := (List.chain'_cons.1 hch).1
        have h2 : keyLe r i := hle r (by simp)
        have h3 := overlapB_true.1 hov
        unfold sep at h1; unfold keyLe at h2
        omega
    · rw [if_neg hov]
      have hei : sep e i := by
        have h1 : overlapB i e = false := by
          cases h : overlapB i e
          · rfl
          · exact absurd h hov
        have h2 : ¬(e.start < i.stop ∧ i.start < e.stop) := by
          intro hc; exact hov (overlapB_true.2 hc)
        have h3 : keyLe e i := hle e (by simp)
        have h4 : WellFormed e := hwf e (by simp)
        unfold keyLe at h3; unfold WellFormed at h4 hwfi; unfold sep
        omega
      refine List.chain'_cons'.2 ⟨?_, ?_⟩
      · refine sweepStep_head_sep ?_ hei
        intro y hy
        cases rest with
        | nil => simp at hy
        | cons r rest' =>
          simp at hy
          exact hy ▸ (List.chain'_cons.1 hch).1
      · exact ih (fun k hk => hwf k (List.mem_cons_of_mem e hk))
          (List.chain'_cons'.1 hch).2
          (fun k hk => hle k (List.mem_cons_of_mem e hk))

theorem foldl_sweep_invariant :
    ∀ (items kept : List SecretFinding),
    List.Sorted keyLe items →
    (∀ f ∈ items, WellFormed f) →
    (∀ k ∈ kept, WellFormed k) →
    List.Chain' sep kept →
    (∀ k ∈ kept, ∀ x ∈ items, keyLe k x) →
    (∀ k ∈ items.foldl sweepStep kept, WellFormed k) ∧
    List.Chain' sep (items.foldl sweepStep kept) ∧
    (∀ k ∈ items.foldl sweepStep kept, k ∈ kept ∨ k ∈ items) := by
  intro items
  induction items with
  | nil =>
    intro kept _ _ hwfk hch _
    exact ⟨hwfk, hch, fun k hk => Or.inl hk⟩
  | cons x rest ih =>
    intro kept hsort hwfi hwfk hch hle
    have hx : x ∈ x :: rest := List.mem_cons_self x rest
    have hsort' := (List.sorted_cons.1 hsort)
    have hwf' : ∀ k ∈ sweepStep kept x, WellFormed k := by
      intro k hk
      rcases mem_sweepStep hk with h | h
      · exact hwfk k h
      · exact h ▸ hwfi x hx
    have hch' : List.Chain' sep (sweepStep kept x) :=
      sweepStep_chain hwfk (hwfi x hx) hch (fun k hk => hle k hk x hx)
    have hle' : ∀ k ∈ sweepStep kept x, ∀ y ∈ rest, keyLe k y := by
      intro k hk y hy
      rcases mem_sweepStep hk with h | h
      · exact hle k h y (List.mem_cons_of_mem x hy)
      · exact h ▸ hsort'.1 y hy
    have hmain := ih (sweepStep kept x) hsort'.2
      (fun f hf => hwfi f (List.mem_cons_of_mem x hf)) hwf' hch' hle'
    refine ⟨hmain.1, hmain.2.1, ?_⟩
    intro k hk
    rcases hmain.2.2 k hk with h | h
    · rcases mem_sweepStep h with h1 | h1
      · exact Or.inl h1
      · exact Or.inr (h1 ▸ hx)
    · exact Or.inr (List.mem_cons_of_mem x h)

theorem chain_sep_all {x : SecretFinding} :
    ∀ {l : List SecretFinding}, (∀ k ∈ l, WellFormed k) →
    List.Chain' sep (x :: l) → ∀ y ∈ l, sep x y := by
  intro l
  induction l generalizing x with
  | nil => intro _ _ y hy; simp at hy
  | cons y l' ih =>
    intro hwf hch z hz
    have h1 : sep x y := (List.chain'_cons.1 hch).1
    rcases List.mem_cons.1 hz with h | h
    · exact h ▸ h1
    · have h2 := ih (fun k hk => hwf k (List.mem_cons_of_mem y hk))
        (List.chain'_cons'.1 hch).2 z h
      have h3 : WellFormed y := hwf y (by simp)
      unfold sep at *; unfold WellFormed at h3
      omega

theorem chain_sep_pairwise :
    ∀ {l : List SecretFinding}, (∀ k ∈ l, WellFormed k) →
    List.Chain' sep l → List.Pairwise sep l := by
  intro l
  induction l with
  | nil => intro _ _; exact List.Pairwise.nil
  | cons x l' ih =>
    intro hwf hch
    refine List.pairwise_cons.2 ⟨?_, ?_⟩
    · exact chain_sep_all (fun k hk => hwf k (List.mem_cons_of_mem x hk)) hch
    · exact ih (fun k hk => hwf k (List.mem_cons_of_mem x hk))
        (List.chain'_cons'.1 hch).2

theorem pairwise_sep_sorted {l : List SecretFinding}
    (hwf : ∀ k ∈ l, WellFormed k) (hpw : List.Pairwise sep l) :
    List.Sorted keyLe l := by
  refine hpw.imp_of_mem ?_
  intro a b ha hb hsep
  have h1 : WellFormed a := hwf a ha
  have h2 : WellFormed b := hwf b hb
  unfold sep at hsep; unfold WellFormed at h1 h2; unfold keyLe
  omega

theorem pairwise_sep_no_overlap {l : List SecretFinding}
    (hpw : List.Pairwise sep l) :
    List.Pairwise (fun a b => overlapB b a = false) l := by
  refine hpw.imp ?_
  intro a b hsep
  cases h : overlapB b a
  · rfl
  · have := overlapB_true.1 h
    unfold sep at hsep
    omega

theorem dedupeGroup_wf_chain {items : List SecretFinding}
    (hwf : ∀ f ∈ items, WellFormed f) :
    (∀ k ∈ dedupeGroup items, WellFormed k) ∧
    List.Chain' sep (dedupeGroup items) ∧
    (∀ k ∈ dedupeGroup items, k ∈ items) := by
  have hsorted : List.Sorted keyLe (sortFindings items) :=
    List.sorted_insertionSort keyLe items
  have hwfs : ∀ f ∈ sortFindings items, WellFormed f := by
    intro f hf
    exact hwf f ((List.mem_insertionSort keyLe).1 hf)
  have h := foldl_sweep_invariant (sortFindings items) [] hsorted hwfs
    (by intro k hk; simp at hk) (by simp) (by intro k hk; simp at hk)
  refine ⟨h.1, h.2.1, ?_⟩
  intro k hk
  rcases h.2.2 k hk with h1 | h1
  · simp at h1
  · exact (List.mem_insertionSort keyLe).1 h1

theorem dedupeGroup_idem {items : List SecretFinding}
    (hwf : ∀ f ∈ items, WellFormed f) :
    dedupeGroup (dedupeGroup items) = dedupeGroup items := by
  obtain ⟨hwf', hch, _⟩ := dedupeGroup_wf_chain hwf
  have hpw := chain_sep_pairwise hwf' hch
  have hsorted := pairwise_sep_sorted hwf' hpw
  show sweep (sortFindings (dedupeGroup items)) = dedupeGroup items
  rw [show sortFindings (dedupeGroup items) = dedupeGroup items from
    hsorted.insertionSort_eq]
  exact sweep_of_pairwise (pairwise_sep_no_overlap hpw)

/-! ### Lemmas about grouping by (file path, line number) -/

theorem foldl_sweepStep_ne_nil :
    ∀ (items kept : List SecretFinding), kept ≠ [] →
    items.foldl sweepStep kept ≠ [] := by
  intro items
  induction items with
  | nil => intro kept h; exact h
  | cons i rest ih =>
    intro kept _
    exact ih (sweepStep kept i) (sweepStep_ne_nil kept i)

theorem sweep_ne_nil {items : List SecretFinding} (h : items ≠ []) :
    sweep items ≠ [] := by
  cases items with
  | nil => exact absurd rfl h
  | cons i rest =>
    show (i :: rest).foldl sweepStep [] ≠ []
    rw [List.foldl_cons]
    exact foldl_sweepStep_ne_nil rest (sweepStep [] i) (sweepStep_ne_nil [] i)

theorem dedupeGroup_ne_nil {items : List SecretFinding} (h : items ≠ []) :
    dedupeGroup items ≠ [] := by
  refine sweep_ne_nil ?_
  intro hc
  have hp := List.perm_insertionSort keyLe items
  rw [show List.insertionSort keyLe items = [] from hc] at hp
  exact h hp.nil_eq.symm

theorem foldl_mem_sweep :
    ∀ (items kept : List SecretFinding) (k : SecretFinding),
    k ∈ items.foldl sweepStep kept → k ∈ kept ∨ k ∈ items := by
  intro items
  induction items with
  | nil => intro kept k hk; exact Or.inl hk
  | cons i rest ih =>
    intro kept k hk
    rcases ih (sweepStep kept i) k hk with h | h
    · rcases mem_sweepStep h with h1 | h1
      · exact Or.inl h1
      · exact Or.inr (h1 ▸ List.mem_cons_self i rest)
    · exact Or.inr (List.mem_cons_of_mem i h)

theorem mem_dedupeGroup {items : List SecretFinding} {k : SecretFinding}
    (hk : k ∈ dedupeGroup items) : k ∈ items := by
  rcases foldl_mem_sweep (sortFindings items) [] k hk with h | h
  · simp at h
  · exact (List.mem_insertionSort keyLe).1 h

theorem foldl_gstep_mem :
    ∀ (l : List SecretFinding) (acc : List (String × Nat)) (k : String × Nat),
    k ∈ l.foldl gstep acc ↔ k ∈ acc ∨ ∃ f ∈ l, groupKey f = k := by
  intro l
  induction l with
  | nil => intro acc k; simp
  | cons f rest ih =>
    intro acc k
    rw [List.foldl_cons, ih]
    unfold gstep kstep
    constructor
    · rintro (h | h)
      · split at h
        · exact Or.inl h
        · rcases List.mem_append.1 h with h1 | h1
          · exact Or.inl h1
          · have h2 : k = groupKey f := by simpa using h1
            exact Or.inr ⟨f, List.mem_cons_self f rest, h2.symm⟩
      · obtain ⟨g, hg, hgk⟩ := h
        exact Or.inr ⟨g, List.mem_cons_of_mem f hg, hgk⟩
    · rintro (h | h)
      · refine Or.inl ?_
        split
        · exact h
        · exact List.mem_append.2 (Or.inl h)
      · obtain ⟨g, hg, hgk⟩ := h
        rcases List.mem_cons.1 hg with h1 | h1
        · refine Or.inl ?_
          have hfk : groupKey f = k := h1 ▸ hgk
          rw [hfk]
          split
          · assumption
          · exact List.mem_append.2 (Or.inr (by simp))
        · exact Or.inr ⟨g, h1, hgk⟩

theorem mem_groupKeys {l : List SecretFinding} {k : String × Nat} :
    k ∈ groupKeys l ↔ ∃ f ∈ l, groupKey f = k := by
  rw [groupKeys, foldl_gstep_mem]
  simp

theorem foldl_gstep_nodup :
    ∀ (l : List SecretFinding) (acc : List (String × Nat)),
    acc.Nodup → (l.foldl gstep acc).Nodup := by
  intro l
  induction l with
  | nil => intro acc h; exact h
  | cons f rest ih =>
    intro acc hacc
    rw [List.foldl_cons]
    refine ih _ ?_
    unfold gstep kstep
    split
    · exact hacc
    · rename_i hnot
      simpa [List.nodup_append] using ⟨hacc, hnot⟩

theorem groupKeys_nodup (l : List SecretFinding) : (groupKeys l).Nodup :=
  foldl_gstep_nodup l [] List.nodup_nil

theorem kstep_self_mem (ks : List (String × Nat)) (k : String × Nat) :
    k ∈ kstep ks k := by
  unfold kstep
  split
  · assumption
  · simp

theorem kstep_of_mem {ks : List (String × Nat)} {k : String × Nat}
    (h : k ∈ ks) : kstep ks k = ks := by
  unfold kstep
  exact if_pos h

theorem foldl_gstep_pure_block :
    ∀ (b : List SecretFinding) (acc : List (String × Nat)) (k : String × Nat),
    b ≠ [] → (∀ f ∈ b, groupKey f = k) →
    b.foldl gstep acc = kstep acc k := by
  intro b
  induction b with
  | nil => intro acc k h _; exact absurd rfl h
  | cons f rest ih =>
    intro acc k _ hpure
    have hf : groupKey f = k := hpure f (List.mem_cons_self f rest)
    rw [List.foldl_cons]
    cases rest with
    | nil => simp [gstep, hf]
    | cons g rest' =>
      rw [ih _ k (by simp) (fun x hx => hpure x (List.mem_cons_of_mem f hx))]
      rw [show gstep acc f = kstep acc k by rw [gstep, hf]]
      exact kstep_of_mem (kstep_self_mem acc k)

theorem foldl_gstep_flatMap_blocks (B : String × Nat → List SecretFinding) :
    ∀ (ks : List (String × Nat)) (acc : List (String × Nat)),
    (∀ k ∈ ks, B k ≠ [] ∧ ∀ f ∈ B k, groupKey f = k) →
    (ks.flatMap B).foldl gstep acc = ks.foldl kstep acc := by
  intro ks
  induction ks with
  | nil => intro acc _; rfl
  | cons k rest ih =>
    intro acc hB
    have hk := hB k (List.mem_cons_self k rest)
    rw [List.flatMap_cons, List.foldl_append, List.foldl_cons]
    rw [foldl_gstep_pure_block (B k) acc k hk.1 hk.2]
    exact ih _ (fun x hx => hB x (List.mem_cons_of_mem k hx))

theorem foldl_kstep_of_nodup :
    ∀ (ks acc : List (String × Nat)), ks.Nodup → (∀ k ∈ ks, k ∉ acc) →
    ks.foldl kstep acc = acc ++ ks := by
  intro ks
  induction ks with
  | nil => intro acc _ _; simp
  | cons k rest ih =>
    intro acc hnd hdisj
    rw [List.foldl_cons]
    rw [show kstep acc k = acc ++ [k] from
      if_neg (hdisj k (List.mem_cons_self k rest))]
    rw [ih (acc ++ [k]) (List.nodup_cons.1 hnd).2 ?_]
    · simp
    · intro x hx
      intro hc
      rcases List.mem_append.1 hc with h1 | h1
      · exact hdisj x (List.mem_cons_of_mem k hx) h1
      · have : x = k := by simpa using h1
        exact (List.nodup_cons.1 hnd).1 (this ▸ hx)

theorem filter_flatMap_comm {α β : Type} (g : α → List β) (p : β → Bool) :
    ∀ (l : List α), (l.flatMap g).filter p = l.flatMap (fun a => (g a).filter p) := by
  intro l
  induction l with
  | nil => rfl
  | cons a rest ih =>
    rw [List.flatMap_cons, List.filter_append, ih, List.flatMap_cons]

theorem flatMap_congr_mem {α β : Type} {l : List α} {f g : α → List β}
    (h : ∀ a ∈ l, f a = g a) : l.flatMap f = l.flatMap g := by
  induction l with
  | nil => rfl
  | cons a rest ih =>
    rw [List.flatMap_cons, List.flatMap_cons,
      h a (List.mem_cons_self a rest),
      ih (fun x hx => h x (List.mem_cons_of_mem a hx))]

theorem flatMap_single {β : Type} :
    ∀ (ks : List (String × Nat)) (k : String × Nat) (C : List β),
    ks.Nodup → k ∈ ks →
    (ks.flatMap fun x => if x = k then C else []) = C := by
  intro ks
  induction ks with
  | nil => intro k C _ h; simp at h
  | cons x rest ih =>
    intro k C hnd hk
    rw [List.flatMap_cons]
    rcases List.mem_cons.1 hk with h | h
    · rw [if_pos h.symm]
      have : ∀ y ∈ rest, ¬(y = k) := by
        intro y hy hc
        exact (List.nodup_cons.1 hnd).1 ((hc.trans h) ▸ hy)
      rw [show (rest.flatMap fun y => if y = k then C else []) = rest.flatMap fun _ => ([] : List β) from
        flatMap_congr_mem (fun y hy => if_neg (this y hy))]
      simp
    · rw [if_neg ?_]
      · rw [List.nil_append]
        exact ih k C (List.nodup_cons.1 hnd).2 h
      · intro hc
        exact (List.nodup_cons.1 hnd).1 (hc.symm ▸ h)

theorem block_pure (l : List SecretFinding) (k : String × Nat) :
    ∀ f ∈ dedupeGroup (l.filter fun f => decide (groupKey f = k)),
    groupKey f = k := by
  intro f hf
  have h1 := mem_dedupeGroup hf
  have h2 := List.mem_filter.1 h1
  exact of_decide_eq_true h2.2

theorem block_ne_nil {l : List SecretFinding} {k : String × Nat}
    (hk : k ∈ groupKeys l) :
    dedupeGroup (l.filter fun f => decide (groupKey f = k)) ≠ [] := by
  obtain ⟨f, hf, hfk⟩ := mem_groupKeys.1 hk
  exact dedupeGroup_ne_nil
    (List.ne_nil_of_mem (List.mem_filter.2 ⟨hf, decide_eq_true hfk⟩))

theorem groupKeys_run_dedupe (l : List SecretFinding) :
    groupKeys (run_dedupe l) = groupKeys l := by
  show (run_dedupe l).foldl gstep [] = groupKeys l
  rw [run_dedupe]
  rw [foldl_gstep_flatMap_blocks _ (groupKeys l) []
    (fun k hk => ⟨block_ne_nil hk, block_pure l k⟩)]
  rw [foldl_kstep_of_nodup (groupKeys l) [] (groupKeys_nodup l)
    (by intro k _; simp)]
  simp

theorem filter_run_dedupe {l : List SecretFinding} {k : String × Nat}
    (hk : k ∈ groupKeys l) :
    (run_dedupe l).filter (fun f => decide (groupKey f = k)) =
      dedupeGroup (l.filter fun f => decide (groupKey f = k)) := by
  rw [run_dedupe, filter_flatMap_comm]
  rw [flatMap_congr_mem (g := fun x =>
    if x = k then dedupeGroup (l.filter fun f => decide (groupKey f = k))
    else []) ?_]
  · exact flatMap_single _ k _ (groupKeys_nodup l) hk
  · intro x hx
    by_cases hxk : x = k
    · subst hxk
      show _ = if x = x then
        dedupeGroup (l.filter fun f => decide (groupKey f = x)) else []
      rw [if_pos rfl]
      refine List.filter_eq_self.2 ?_
      intro f hf
      exact decide_eq_true (block_pure l x f hf)
    · show _ = if x = k then
        dedupeGroup (l.filter fun f => decide (groupKey f = k)) else []
      rw [if_neg hxk]
      refine List.filter_eq_nil_iff.2 ?_
      intro f hf
      have := block_pure l x f hf
      simp only [decide_eq_true_eq]
      intro hc
      exact hxk (this ▸ hc ▸ rfl)

/-! ### The Deduplicator claims -/

/-- C1 counterexample: the dedup pass of `run_secret_scan` is not idempotent
on all finding lists.  With the degenerate (reversed) span (5, 0) alongside
spans (0, 10) and (6, 9), the first pass returns the findings in the order
[(6, 9), (5, 0)], and the second pass re-sorts that group and returns
[(5, 0), (6, 9)], a different list. -/
theorem dedup_idempotence_cex :
    run_dedupe (run_dedupe [cexIdemA, cexIdemB, cexIdemC]) ≠
      run_dedupe [cexIdemA, cexIdemB, cexIdemC] := by decide

/-- C1 (amended): for every list of findings whose spans are well-formed
(start ≤ end) — which includes every finding the Line Scanner can emit,
since its spans are regex match spans — the Deduplicator is idempotent:
applying the dedup pass to its own output returns exactly the same list of
findings as the first application. -/
theorem dedup_idempotent_of_wellFormed (l : List SecretFinding)
    (hwf : ∀ f ∈ l, WellFormed f) :
    run_dedupe (run_dedupe l) = run_dedupe l := by
  conv_lhs => rw [run_dedupe]
  rw [groupKeys_run_dedupe]
  rw [flatMap_congr_mem (g := fun k =>
    dedupeGroup (l.filter fun f => decide (groupKey f = k))) ?_]
  · rfl
  · intro k hk
    rw [filter_run_dedupe hk]
    refine dedupeGroup_idem ?_
    intro f hf
    exact hwf f (List.mem_filter.1 hf).1

/-- C1 witness: the amended idempotence theorem applied to a concrete list
of three well-formed findings. -/
theorem dedup_idempotent_witness :
    run_dedupe (run_dedupe [cexDomA, cexDomB, cexDomC]) =
      run_dedupe [cexDomA, cexDomB, cexDomC] :=
  dedup_idempotent_of_wellFormed [cexDomA, cexDomB, cexDomC] (by decide)

/-- C7 counterexample: it is not true that for any two overlapping findings
on the same line, the retained one has specificity score ≥ the discarded
one.  Here `cexDomB` (score 6) is discarded in favour of `cexDomA`
(score 106), yet `cexDomB` also overlaps the retained `cexDomC`, whose
score -7 is strictly smaller than the discarded finding's score. -/
theorem specificity_dominance_cex :
    cexDomC ∈ run_dedupe [cexDomA, cexDomB, cexDomC] ∧
    cexDomB ∈ [cexDomA, cexDomB, cexDomC] ∧
    cexDomB ∉ run_dedupe [cexDomA, cexDomB, cexDomC] ∧
    overlapB cexDomB cexDomC = true ∧
    specificity_score cexDomC < specificity_score cexDomB := by decide

theorem sweepStep_scores_preserved :
    ∀ (kept : List SecretFinding) (i k : SecretFinding), k ∈ kept →
    ∃ x ∈ sweepStep kept i, specificity_score k ≤ specificity_score x := by
  intro kept
  induction kept with
  | nil => intro i k hk; simp at hk
  | cons e rest ih =>
    intro i k hk
    unfold sweepStep
    by_cases hov : overlapB i e = true
    · rw [if_pos hov]
      rcases List.mem_cons.1 hk with h | h
      · subst h
        by_cases hs : specificity_score i > specificity_score k
        · rw [if_pos hs]
          exact ⟨i, List.mem_cons_self i rest, le_of_lt hs⟩
        · rw [if_neg hs]
          exact ⟨k, List.mem_cons_self k rest, le_refl _⟩
      · refine ⟨k, ?_, le_refl _⟩
        exact List.mem_cons_of_mem _ h
    · rw [if_neg hov]
      rcases List.mem_cons.1 hk with h | h
      · subst h
        exact ⟨k, List.mem_cons_self k _, le_refl _⟩
      · obtain ⟨x, hx, hle⟩ := ih i k h
        exact ⟨x, List.mem_cons_of_mem e hx, hle⟩

theorem sweepStep_dominates_item :
    ∀ (kept : List SecretFinding) (i : SecretFinding),
    ∃ x ∈ sweepStep kept i, specificity_score i ≤ specificity_score x := by
  intro kept
  induction kept with
  | nil => intro i; exact ⟨i, by simp [sweepStep], le_refl _⟩
  | cons e rest ih =>
    intro i
    unfold sweepStep
    by_cases hov : overlapB i e = true
    · rw [if_pos hov]
      by_cases hs : specificity_score i > specificity_score e
      · rw [if_pos hs]
        exact ⟨i, List.mem_cons_self i rest, le_refl _⟩
      · rw [if_neg hs]
        exact ⟨e, List.mem_cons_self e rest, le_of_not_lt hs⟩
    · rw [if_neg hov]
      obtain ⟨x, hx, hle⟩ := ih i
      exact ⟨x, List.mem_cons_of_mem e hx, hle⟩

theorem foldl_sweep_dominates :
    ∀ (items kept : List SecretFinding) (d : SecretFinding),
    (d ∈ kept ∨ d ∈ items) →
    ∃ x ∈ items.foldl sweepStep kept,
      specificity_score d ≤ specificity_score x := by
  intro items
  induction items with
  | nil =>
    intro kept d hd
    rcases hd with h | h
    · exact ⟨d, h, le_refl _⟩
    · simp at h
  | cons i rest ih =>
    intro kept d hd
    rw [List.foldl_cons]
    rcases hd with h | h
    · obtain ⟨x, hx, hle⟩ := sweepStep_scores_preserved kept i d h
      obtain ⟨y, hy, hle'⟩ := ih (sweepStep kept i) x (Or.inl hx)
      exact ⟨y, hy, le_trans hle hle'⟩
    · rcases List.mem_cons.1 h with h1 | h1
      · subst h1
        obtain ⟨x, hx, hle⟩ := sweepStep_dominates_item kept d
        obtain ⟨y, hy, hle'⟩ := ih (sweepStep kept d) x (Or.inl hx)
        exact ⟨y, hy, le_trans hle hle'⟩
      · exact ih (sweepStep kept i) d (Or.inr h1)

theorem dedupeGroup_dominates {items : List SecretFinding}
    {d : SecretFinding} (hd : d ∈ items) :
    ∃ x ∈ dedupeGroup items, specificity_score d ≤ specificity_score x :=
  foldl_sweep_dominates (sortFindings items) [] d
    (Or.inr ((List.mem_insertionSort keyLe).2 hd))

/-- C7 (amended): every overlap the sweep resolves directly keeps the
higher-scoring finding (ties keep the earlier one), so every input finding
is dominated by some finding the Deduplicator retains on its own
(file path, line number) group: for each finding `d` of the input there is a
retained finding of the same group whose specificity score is ≥ `d`'s.
A discarded finding may however overlap a different retained finding of
strictly smaller score, which is what the counterexample exhibits. -/
theorem specificity_dominance_grouped (l : List SecretFinding)
    (d : SecretFinding) (hd : d ∈ l) :
    ∃ x, x ∈ run_dedupe l ∧ groupKey x = groupKey d ∧
      specificity_score d ≤ specificity_score x := by
  have hk : groupKey d ∈ groupKeys l := mem_groupKeys.2 ⟨d, hd, rfl⟩
  have hdf : d ∈ l.filter (fun f => decide (groupKey f = groupKey d)) :=
    List.mem_filter.2 ⟨hd, decide_eq_true rfl⟩
  obtain ⟨x, hx, hscore⟩ := dedupeGroup_dominates hdf
  refine ⟨x, ?_, block_pure l (groupKey d) x hx, hscore⟩
  rw [run_dedupe]
  exact List.mem_flatMap.2 ⟨groupKey d, hk, hx⟩

/-- C7 witness: the amended dominance theorem applied to a concrete
finding list. -/
theorem specificity_dominance_grouped_witness :
    ∃ x, x ∈ run_dedupe [cexDomA] ∧ groupKey x = groupKey cexDomA ∧
      specificity_score cexDomA ≤ specificity_score x :=
  specificity_dominance_grouped [cexDomA] cexDomA (by decide)

/-! ### The Redactor claim -/

theorem take_append_exact {α : Type} (l₁ l₂ : List α) (n : Nat)
    (h : l₁.length = n) : (l₁ ++ l₂).take n = l₁ := by
  subst h
  rw [List.take_append_of_le_length (le_refl _), List.take_length]

theorem drop_append_exact {α : Type} (l₁ l₂ : List α) (n : Nat)
    (h : l₁.length = n) : (l₁ ++ l₂).drop n = l₂ := by
  subst h
  have h0 := @List.drop_append _ l₁ l₂ 0
  rw [Nat.add_zero] at h0
  rw [h0, List.drop_zero]

theorem redact_secret_length {text : List Char} {start stop : Nat}
    (h1 : start ≤ stop) (h2 : stop ≤ text.length) :
    (redact_secret text start stop).length = stop - start := by
  unfold redact_secret
  split
  · simp
  · rename_i h
    unfold visibleChars at *
    simp only [List.length_append, List.length_take, List.length_drop,
      List.length_replicate]
    omega

/-- C2: with redact=true, the context produced at scanner.py lines 377-378
keeps the original line outside the secret span (the prefix before `start`
and the suffix from `end` are unchanged and the length is preserved);
within the span at most `min(4, secretLength // 4)` original characters
remain at each edge — a bound that is itself at most 4 — and every
character strictly between the two visible edges is `'*'`; when the secret
is too short for two non-overlapping visible edges, the entire span is
masked with `'*'`. -/
theorem redaction_bound (line : List Char) (start stop : Nat)
    (h1 : start ≤ stop) (h2 : stop ≤ line.length) :
    (redactedContext line start stop).length = line.length ∧
    (redactedContext line start stop).take start = line.take start ∧
    (redactedContext line start stop).drop stop = line.drop stop ∧
    visibleChars start stop ≤ 4 ∧
    ((redactedContext line start stop).drop
        (start + visibleChars start stop)).take
        (stop - start - 2 * visibleChars start stop) =
      List.replicate (stop - start - 2 * visibleChars start stop) '*' ∧
    (stop - start ≤ 2 * visibleChars start stop →
      ((redactedContext line start stop).drop start).take (stop - start) =
        List.replicate (stop - start) '*') := by
  have hR : (redact_secret line start stop).length = stop - start :=
    redact_secret_length h1 h2
  have htake : (line.take start).length = start := by
    rw [List.length_take]; omega
  have hAR : (line.take start ++ redact_secret line start stop).length = stop := by
    simp only [List.length_append, htake, hR]
    omega
  have hlen : (redactedContext line start stop).length = line.length := by
    unfold redactedContext
    simp only [List.length_append, List.length_drop, htake, hR]
    omega
  have hpre : (redactedContext line start stop).take start = line.take start := by
    unfold redactedContext
    rw [List.take_append_of_le_length (by rw [hAR]; omega)]
    rw [List.take_append_of_le_length (by rw [htake])]
    rw [List.take_take]
    simp
  have hsuf : (redactedContext line start stop).drop stop = line.drop stop := by
    unfold redactedContext
    exact drop_append_exact _ _ stop hAR
  refine ⟨hlen, hpre, hsuf, by unfold visibleChars; omega, ?_, ?_⟩
  · -- the middle of the span is fully masked
    by_cases hbr : stop - start ≤ visibleChars start stop * 2
    · have hz : stop - start - 2 * visibleChars start stop = 0 := by omega
      rw [hz]
      simp
    · have hv4 : visibleChars start stop ≤ (stop - start) / 4 := by
        unfold visibleChars; omega
      have hvs : visibleChars start stop ≤ stop - start := by
        have := Nat.div_le_self (stop - start) 4
        omega
      have heq : redactedContext line start stop =
          (line.take start ++ (line.drop start).take (visibleChars start stop)) ++
          (List.replicate (stop - start - visibleChars start stop * 2) '*' ++
            ((line.drop (stop - visibleChars start stop)).take
              (visibleChars start stop) ++ line.drop stop)) := by
        unfold redactedContext redact_secret
        rw [if_neg hbr]
        simp [List.append_assoc]
      rw [heq]
      rw [drop_append_exact _ _ (start + visibleChars start stop) ?hlen1]
      case hlen1 =>
        simp only [List.length_append, htake, List.length_take,
          List.length_drop]
        omega
      rw [show stop - start - 2 * visibleChars start stop
          = stop - start - visibleChars start stop * 2 by omega]
      refine take_append_exact _ _ _ ?_
      simp
  · -- full mask when the secret is too short for two visible edges
    intro hshort
    have heq : redactedContext line start stop =
        line.take start ++
          (List.replicate (stop - start) '*' ++ line.drop stop) := by
      unfold redactedContext redact_secret
      rw [if_pos (by omega)]
      simp [List.append_assoc]
    rw [heq]
    rw [drop_append_exact _ _ start htake]
    refine take_append_exact _ _ _ ?_
    simp

/-! ### The File Classifier claim -/

theorem isPrefixOf_self : ∀ (l : List Char), l.isPrefixOf l = true
  | [] => rfl
  | c :: rest => by simp [List.isPrefixOf, isPrefixOf_self rest]

theorem substrB_self (p : String) : substrB p p = true := by
  unfold substrB
  cases h : p.data with
  | nil => rfl
  | cons c rest => simp [substrAux, isPrefixOf_self]

/-- C9 counterexample: the file `notes_token.txt` is selected as a scan
candidate by the code (its lowercased name contains the sensitive filename
`token` as a substring) although it is not an exact member of the
sensitive-filename set, its extension `.txt` is neither sensitive nor a
source extension — refuting the claim's "exactly when". -/
theorem candidate_rule_cex :
    isCandidate {} "notes_token.txt" = true ∧
    isCandidateSpecC9 {} "notes_token.txt" = false := by decide

/-- C9 (amended): a file is selected exactly when its extension is in the
sensitive-extension set, or its lowercased filename CONTAINS one of the
sensitive filenames as a substring, or source scanning is enabled and the
extension is a source extension.  Every file the claimed exact-membership
rule selects is still selected, any additionally selected file owes its
selection to a substring hit, and a file named exactly `id_rsa` is always
selected, whatever the configuration. -/
theorem candidate_rule_amended :
    (∀ cfg : ScanConfig, isCandidate cfg "id_rsa" = true) ∧
    (∀ (cfg : ScanConfig) (file : String),
      isCandidateSpecC9 cfg file = true → isCandidate cfg file = true) ∧
    (∀ (cfg : ScanConfig) (file : String),
      isCandidate cfg file = true →
      isCandidateSpecC9 cfg file = true ∨
        ∃ sens ∈ SENSITIVE_FILENAMES, substrB sens (pyLower file) = true) := by
  refine ⟨?_, ?_, ?_⟩
  · intro cfg
    have h : SENSITIVE_FILENAMES.any
        (fun sens => substrB sens (pyLower "id_rsa")) = true := by decide
    simp [isCandidate, h]
  · intro cfg file h
    simp only [isCandidateSpecC9, Bool.or_eq_true, Bool.and_eq_true] at h
    simp only [isCandidate, Bool.or_eq_true, Bool.and_eq_true]
    rcases h with (h | h) | h
    · exact Or.inl (Or.inl h)
    · refine Or.inl (Or.inr ?_)
      rw [List.any_eq_true]
      refine ⟨pyLower file, ?_, substrB_self _⟩
      have h2 := List.contains_iff_exists_mem_beq.1 h
      obtain ⟨x, hx, hbeq⟩ := h2
      exact (eq_of_beq hbeq).symm ▸ hx
    · exact Or.inr h
  · intro cfg file h
    simp only [isCandidate, Bool.or_eq_true, Bool.and_eq_true] at h
    rcases h with (h | h) | h
    · refine Or.inl ?_
      simp only [isCandidateSpecC9, Bool.or_eq_true, Bool.and_eq_true]
      exact Or.inl (Or.inl h)
    · refine Or.inr ?_
      rw [List.any_eq_true] at h
      obtain ⟨sens, hmem, hsub⟩ := h
      exact ⟨sens, hmem, hsub⟩
    · refine Or.inl ?_
      simp only [isCandidateSpecC9, Bool.or_eq_true, Bool.and_eq_true]
      exact Or.inr h

/-- C9 witness: the amended rule applied to concrete filenames — `id_rsa`
(always selected) and `secrets` (selected already by the exact rule). -/
theorem candidate_rule_amended_witness :
    isCandidate {} "id_rsa" = true ∧ isCandidate {} "secrets" = true :=
  ⟨candidate_rule_amended.1 {},
   candidate_rule_amended.2.1 {} "secrets" (by decide)⟩

/-! ### The lock-exclusivity and disjoint-workdir claims -/

theorem bothCloning_reachable :
    ReachableScan ⟨Phase.cloning, Phase.cloning⟩ := by
  have h0 : ReachableScan initScans := ReachableScan.init
  have h1 : ReachableScan ⟨Phase.queued, Phase.created⟩ :=
    h0.step (ScanStep.left _)
  have h2 : ReachableScan ⟨Phase.queued, Phase.queued⟩ :=
    h1.step (ScanStep.right _)
  have h3 : ReachableScan ⟨Phase.scanning, Phase.queued⟩ :=
    h2.step (ScanStep.left _)
  have h4 : ReachableScan ⟨Phase.cloning, Phase.queued⟩ :=
    h3.step (ScanStep.left _)
  have h5 : ReachableScan ⟨Phase.cloning, Phase.scanning⟩ :=
    h4.step (ScanStep.right _)
  exact h5.step (ScanStep.right _)

theorem bothCloning_trace :
    TraceFrom initScans
      [⟨Phase.queued, Phase.created⟩, ⟨Phase.queued, Phase.queued⟩,
       ⟨Phase.scanning, Phase.queued⟩, ⟨Phase.cloning, Phase.queued⟩,
       ⟨Phase.cloning, Phase.scanning⟩, ⟨Phase.cloning, Phase.cloning⟩] := by
  refine TraceFrom.cons (ScanStep.left _) ?_
  refine TraceFrom.cons (ScanStep.right _) ?_
  refine TraceFrom.cons (ScanStep.left _) ?_
  refine TraceFrom.cons (ScanStep.left _) ?_
  refine TraceFrom.cons (ScanStep.right _) ?_
  refine TraceFrom.cons (ScanStep.right _) ?_
  exact TraceFrom.nil _

theorem scanStep_s2 {s t : TwoScans} (h : ScanStep s t) :
    t.s2 = s.s2 ∨ t.s2 = s.s2.next := by
  cases h with
  | left => exact Or.inl rfl
  | right => exact Or.inr rfl

theorem phaseIdx_next_le (p : Phase) : phaseIdx p.next ≤ phaseIdx p + 1 := by
  cases p <;> decide

theorem trace_passes_through :
    ∀ (s0 : TwoScans) (tr : List TwoScans), TraceFrom s0 tr →
    ∀ (k : Nat), ∀ s ∈ tr, phaseIdx s0.s2 < k → k ≤ phaseIdx s.s2 →
    ∃ t ∈ tr, phaseIdx t.s2 = k := by
  intro s0 tr h
  induction h with
  | nil => intro k s hs; simp at hs
  | cons hstep htr ih =>
    rename_i s' t1 rest
    intro k s hs hlow hhigh
    have hle : phaseIdx t1.s2 ≤ phaseIdx s'.s2 + 1 := by
      rcases scanStep_s2 hstep with h2 | h2
      · rw [h2]; omega
      · rw [h2]; exact phaseIdx_next_le _
    rcases List.mem_cons.1 hs with h1 | h1
    · subst h1
      have hk : phaseIdx s.s2 = k := by omega
      exact ⟨s, List.mem_cons_self _ _, hk⟩
    · by_cases hc : k ≤ phaseIdx t1.s2
      · have hk : phaseIdx t1.s2 = k := by omega
        exact ⟨t1, List.mem_cons_self _ _, hk⟩
      · obtain ⟨t, ht, hk⟩ := ih k s h1 (by omega) hhigh
        exact ⟨t, List.mem_cons_of_mem _ ht, hk⟩

theorem phaseIdx_eq_one {p : Phase} (h : phaseIdx p = 1) : p = Phase.queued := by
  cases p <;> simp [phaseIdx] at h ⊢

/-- C3 counterexample: main.py contains no per-repository lock (nor does
scanner.py), so nothing guards one scan's clone+scan section against the
other's.  The interleaving model of the two background tasks — each step of
which is an atomic statement of `scan_repo_async`/`run_scan_background`,
with no step guarded by the other task's phase because the code has no
cross-task synchronization — reaches a state in which BOTH scans of the
same repository URL are inside their Cloning phase, refuting the claimed
mutual exclusion. -/
theorem lock_exclusivity_cex :
    ReachableScan ⟨Phase.cloning, Phase.cloning⟩ :=
  bothCloning_reachable

/-- C3 (amended): each submission is indeed marked `queued` in the Registry
(and any execution that brings the second scan to its Cloning phase passes
through a state where it is `queued`), but the second submission never
blocks: there is no per-repository lock, and an interleaving exists in
which the two scans' Cloning phases overlap. -/
theorem lock_exclusivity_amended :
    statusOf Phase.queued = "queued" ∧
    (∃ tr : List TwoScans, TraceFrom initScans tr ∧
      (⟨Phase.cloning, Phase.cloning⟩ : TwoScans) ∈ tr) ∧
    (∀ (tr : List TwoScans), TraceFrom initScans tr →
      ∀ s ∈ tr, s.s2 = Phase.cloning →
      ∃ t ∈ tr, t.s2 = Phase.queued) := by
  refine ⟨rfl, ⟨_, bothCloning_trace, by simp⟩, ?_⟩
  intro tr htr s hs hcl
  have h1 : phaseIdx initScans.s2 < 1 := by decide
  have h2 : 1 ≤ phaseIdx s.s2 := by rw [hcl]; decide
  obtain ⟨t, ht, hk⟩ := trace_passes_through initScans tr htr 1 s hs h1 h2
  exact ⟨t, ht, phaseIdx_eq_one hk⟩

/-- C3 witness: the pass-through-queued part applied to the concrete
interleaving that overlaps the two Cloning phases. -/
theorem lock_exclusivity_amended_witness :
    ∃ t ∈ [(⟨Phase.queued, Phase.created⟩ : TwoScans),
      ⟨Phase.queued, Phase.queued⟩, ⟨Phase.scanning, Phase.queued⟩,
      ⟨Phase.cloning, Phase.queued⟩, ⟨Phase.cloning, Phase.scanning⟩,
      ⟨Phase.cloning, Phase.cloning⟩], t.s2 = Phase.queued :=
  lock_exclusivity_amended.2.2 _ bothCloning_trace
    ⟨Phase.cloning, Phase.cloning⟩ (by simp) rfl

/-- C4 counterexample: the clone working directory is a function of the
repository URL alone — `base_path/sanitize_repo_name(url)` contains no
per-scan component — and two scans of the same URL can be in flight
simultaneously (both in Cloning, first conjunct).  With a concrete md5
stand-in, the one directory both concurrent scans of
`https://github.com/user/repo.git` operate in is
`./repos/user_repo_00000000`: the working directories are not disjoint. -/
theorem workdir_disjoint_cex :
    ReachableScan ⟨Phase.cloning, Phase.cloning⟩ ∧
    repoWorkdir (fun _ => "00000000") "./repos"
        "https://github.com/user/repo.git" = "./repos/user_repo_00000000" :=
  ⟨bothCloning_reachable, by decide⟩

/-- C4 (amended): working directories of two in-flight scans are disjoint
whenever their sanitized repository names differ — the directory is
exactly `base_path/sanitize_repo_name(url)` — but two concurrent scans of
the SAME URL share one directory, as the counterexample shows. -/
theorem workdir_disjoint_amended :
    ∀ (h : String → String) (base u₁ u₂ : String),
      sanitize_repo_name h u₁ ≠ sanitize_repo_name h u₂ →
      repoWorkdir h base u₁ ≠ repoWorkdir h base u₂ := by
  intro h base u₁ u₂ hne hc
  apply hne
  have hd := congrArg String.data hc
  simp only [repoWorkdir, String.data_append] at hd
  have hd2 := List.append_cancel_left hd
  cases hs₁ : sanitize_repo_name h u₁ with
  | mk d₁ =>
    cases hs₂ : sanitize_repo_name h u₂ with
    | mk d₂ =>
      rw [hs₁, hs₂] at hd2
      exact congrArg String.mk (by simpa using hd2)

/-- C4 witness: two URLs with different sanitized names get different
working directories. -/
theorem workdir_disjoint_amended_witness :
    repoWorkdir (fun _ => "00000000") "./repos"
        "https://github.com/a/x.git" ≠
      repoWorkdir (fun _ => "00000000") "./repos"
        "https://github.com/a/y.git" :=
  workdir_disjoint_amended _ _ _ _ (by decide)

/-! ### The clone-timeout claim -/

/-- C5: the clone of scanner.py lines 306-311 is indeed shallow
(`depth=1`) and single-branch, but it is NOT performed under any timeout:
`clone_repository`'s result is independent of its `timeout` argument (the
parameter is dead code, contradicting the function's own docstring
"Clone repository with validation and timeout" and the comment
"# Clone with timeout"), and a healthy clone of a valid URL that takes 200
wall-clock seconds — above the default 120-second `default_timeout` —
still succeeds, so the scan ends "completed" rather than "failed". -/
theorem clone_timeout_dead :
    (∀ (u p : String) (t₁ t₂ : Nat) (env : CloneEnv),
      clone_repository u p t₁ env = clone_repository u p t₂ env) ∧
    (∀ u p : String, (cloneFromArgs u p).depth = some 1 ∧
      (cloneFromArgs u p).single_branch = true ∧
      (cloneFromArgs u p).kill_after_timeout = none) ∧
    envSlowClone.clone_seconds > ScanConfig.default_timeout {} ∧
    clone_repository "https://github.com/user/repo.git" "./repos/repo" 120
      envSlowClone = (true, "") ∧
    scan_repository_status "https://github.com/user/repo.git" "./repos/repo"
      {} envSlowClone = "completed" := by
  refine ⟨fun u p t₁ t₂ env => rfl, fun u p => ⟨rfl, rfl, rfl⟩,
    by decide, by decide, by decide⟩

/-! ### The concrete-detection, masked-value and empty-file claims -/

set_option maxRecDepth 4000 in
/-- C6: scanning a candidate file whose line 3 is
`api_key: "ABCDEFGHIJKLMNOPQRST"` yields, after deduplication, exactly one
finding: type label "API Key" (which mentions "Key"), line_number 3, and
secret span (10, 30) — exactly the 20-character quoted value; the
`api_key: "` prefix occupies positions 0-9 and lies outside the span.
(The overlapping raw "Generic Key-Value" finding on the same span is
dropped by the specificity resolver: score 10 against 20.) -/
theorem concrete_detection :
    run_dedupe (scan_file_for_secrets "config.yaml" 48 cexFileBytes
        cexFileLines {}) = [cexDetectionFinding] ∧
    cexDetectionFinding.line_number = 3 ∧
    substrB "Key" cexDetectionFinding.secret_type = true ∧
    cexDetectionFinding.start = 10 ∧ cexDetectionFinding.stop = 30 ∧
    cexDetectionFinding.matched_value = "ABCDEFGHIJKLMNOPQRST" ∧
    ("api_key: \"ABCDEFGHIJKLMNOPQRST\"".data.drop 10).take 20 =
      "ABCDEFGHIJKLMNOPQRST".data ∧
    "api_key: \"ABCDEFGHIJKLMNOPQRST\"".data.take 10 =
      "api_key: \"".data := by decide

set_option maxRecDepth 4000 in
/-- C8 counterexample: with `redact_secrets = true` (the default), the
finding produced for the concrete line stores the RAW matched value —
even though its context IS masked — whereas the claim says the stored
value follows the same edge-preserving masking scheme as the context,
which would store `ABCD************QRST`. -/
theorem masked_value_cex :
    ScanConfig.redact_secrets {} = true ∧
    (run_dedupe (scan_file_for_secrets "config.yaml" 48 cexFileBytes
        cexFileLines {})).map (fun f => f.matched_value) =
      ["ABCDEFGHIJKLMNOPQRST"] ∧
    maskValueSpec "ABCDEFGHIJKLMNOPQRST" = "ABCD************QRST" ∧
    "ABCDEFGHIJKLMNOPQRST" ≠ maskValueSpec "ABCDEFGHIJKLMNOPQRST" := by
  decide

set_option maxRecDepth 4000 in
/-- C8 (amended): the matched value stored on a finding is the raw matched
text — no masking is applied to it even with redact_secrets=true; only the
context is masked — and serialization truncates values longer than 200
characters to the first 200 plus `"..."`, a hard cap independent of any
masking: a serialized value never exceeds 203 characters, and values of at
most 200 characters are serialized unchanged. -/
theorem masked_value_amended :
    (run_dedupe (scan_file_for_secrets "config.yaml" 48 cexFileBytes
        cexFileLines {})).map (fun f => (f.matched_value, f.context)) =
      [("ABCDEFGHIJKLMNOPQRST", "api_key: \"ABCD************QRST\"")] ∧
    (∀ v : String, (to_dict_matched_value v).length ≤ 203) ∧
    (∀ v : String, v.length ≤ 200 → to_dict_matched_value v = v) := by
  refine ⟨by decide, ?_, ?_⟩
  · intro v
    unfold to_dict_matched_value
    split
    · rename_i h
      rw [String.length_append]
      have h1 : (String.mk (v.data.take 200)).length = 200 := by
        show (v.data.take 200).length = 200
        rw [List.length_take]
        have : v.length = v.data.length := rfl
        omega
      rw [h1]
      decide
    · rename_i h
      omega
  · intro v hv
    unfold to_dict_matched_value
    rw [if_neg (by omega)]

/-- C8 witness: the serialization bound applied to a short value. -/
theorem masked_value_amended_witness :
    to_dict_matched_value "ABCDEFGHIJKLMNOPQRST" = "ABCDEFGHIJKLMNOPQRST" :=
  masked_value_amended.2.2 "ABCDEFGHIJKLMNOPQRST" (by decide)

/-- C10: a zero-byte file's byte sample contains no null byte, yet
`is_text_file` classifies it as non-text (its final expression is
`... if chunk else False`, and the chunk is empty), so
`scan_file_for_secrets` returns no findings for an empty file. -/
theorem empty_file_no_findings :
    is_text_file [] = false ∧
    ([] : List Nat).contains 0 = false ∧
    ∀ (p : String) (cfg : ScanConfig),
      scan_file_for_secrets p 0 [] [] cfg = [] := by
  refine ⟨rfl, rfl, ?_⟩
  intro p cfg
  unfold scan_file_for_secrets
  split
  · rfl
  · split
    · rfl
    · split
      · rfl
      · simp [scanLines]

/-- C2 witness: the redaction bound applied to the concrete line
`api_key: "ABCDEFGHIJKLMNOPQRST"` with secret span (10, 30). -/
theorem redaction_bound_witness :
    (redactedContext "api_key: \"ABCDEFGHIJKLMNOPQRST\"".data 10 30).take 10 =
      ("api_key: \"ABCDEFGHIJKLMNOPQRST\"".data).take 10 ∧
    ((redactedContext "api_key: \"ABCDEFGHIJKLMNOPQRST\"".data 10 30).drop
        (10 + visibleChars 10 30)).take (30 - 10 - 2 * visibleChars 10 30) =
      List.replicate (30 - 10 - 2 * visibleChars 10 30) '*' := by
  have h := redaction_bound "api_key: \"ABCDEFGHIJKLMNOPQRST\"".data 10 30
    (by decide) (by decide)
  exact ⟨h.2.1, h.2.2.2.2.1⟩

end RepoScanner
